import Mathlib

/-!
Verification development for the unos-tab-sorter browser extension.

The repository groups open browser tabs by a simplified registrable-domain key
("TLD group") of their URL, reorganizes windows so that each window holds one
group, and exports tab snapshots to CSV.  This file shallowly embeds the
relevant source functions from `background_v2.js`, `background_v3.js` and
`background_v4_working.js` and proves (or refutes) the frozen claims about
them.

Modelling conventions:
* JavaScript strings are Lean `String`s; character-level work happens on
  `List Char` via structural recursion so that all definitions evaluate by
  `decide`/`rfl`.
* JavaScript plain objects used as string-keyed dictionaries are modelled as
  insertion-ordered association lists (exact for the keys occurring here,
  which are never array-index strings).
* The host browser (`chrome.*` APIs, `new URL`, `Date`) is modelled at its
  interface boundary: window/tab state is an explicit value threaded through
  the reconciliation functions, and the WHATWG URL parser is modelled by
  `parseHostname` below.
-/

/-- Lexicographic code-point comparison on character lists; models the
ordering induced by `String.prototype.localeCompare` used as a sort
comparator (locale collation is simplified to code-point order). -/
def charListLe : List Char → List Char → Bool
  | [], _ => true
  | _ :: _, [] => false
  | a :: as, b :: bs => if a = b then charListLe as bs else decide (a < b)

/-- String comparison wrapper over `charListLe`. -/
def strLe (a b : String) : Bool := charListLe a.toList b.toList

/-- Split a character list at each occurrence of a separator character.
Auxiliary used to model `hostname.split('.')` and line splitting. -/
def splitOnChar (sep : Char) : List Char → List (List Char)
  | [] => [[]]
  | c :: cs =>
    match splitOnChar sep cs with
    | [] => [[c]]
    | r :: rs => if c = sep then [] :: r :: rs else (c :: r) :: rs

/-- Find the first occurrence of the literal `"://"` in a character list and
split around it.  Returns `none` when the separator is absent. -/
def splitAtSchemeSep : List Char → Option (List Char × List Char)
  | [] => none
  | ':' :: '/' :: '/' :: rest => some ([], rest)
  | c :: rest =>
    (splitAtSchemeSep rest).map (fun p => (c :: p.1, p.2))

/-- Characters allowed in a URL scheme. -/
def isSchemeChar (c : Char) : Bool :=
  c.isAlpha || c.isDigit || c = '+' || c = '-' || c = '.'

/-- Model of the host's WHATWG URL parser, restricted to what the repository
consults: `new URL(url).hostname`.  A URL parses when it has a nonempty
alphabetic-initial scheme followed by `"://"` and a nonempty host; the
hostname is the maximal host run before a path, port, query or fragment
delimiter.  Parsing failure (the `URL` constructor throwing) is `none`. -/
def parseHostname (url : String) : Option String :=
  match splitAtSchemeSep url.toList with
  | none => none
  | some (scheme, rest) =>
    match scheme with
    | [] => none
    | c0 :: _ =>
      if c0.isAlpha && scheme.all isSchemeChar then
        let host := rest.takeWhile fun c =>
          decide (c ≠ '/') && decide (c ≠ ':') && decide (c ≠ '?') && decide (c ≠ '#')
        if host.isEmpty then none else some host.asString
      else none

/-- The dot-separated labels of a hostname. -/
def hostLabels (h : String) : List (List Char) := splitOnChar '.' h.toList

/-- The last two dot-separated labels of a hostname joined by a dot; models
`hostname.split('.').slice(-2).join('.')` from `background_v2.js` (which has
no length guard: `slice(-2)` of a singleton is that singleton). -/
def lastTwoLabels (h : String) : String :=
  let ps := hostLabels h
  (List.intercalate ['.'] (ps.drop (ps.length - 2))).asString

/-- `extractTLD` from `background_v3.js`: parse the URL, take the hostname,
return the last two labels joined by `.` when there is more than one label,
the hostname itself otherwise, and the sentinel `"unknown"` when the URL
fails to parse. -/
def extractTLD (url : String) : String :=
  match parseHostname url with
  | some hostname =>
    if (hostLabels hostname).length > 1 then lastTwoLabels hostname else hostname
  | none => "unknown"

example : parseHostname "https://mail.example.com/z" = some "mail.example.com" := by decide
example : extractTLD "https://mail.example.com/z" = "example.com" := by decide
example : extractTLD "https://localhost/x" = "localhost" := by decide
example : extractTLD "not a url" = "unknown" := by decide
example : extractTLD "chrome://newtab/" = "newtab" := by decide

/-! ## Data model -/

/-- One snapshot record per eligible tab (the objects pushed into `tabData`
by the collectors in all background versions). -/
structure Tab where
  id : Nat
  title : String
  url : String
  windowId : Nat
  tld : String
  openTime : Nat
deriving Repr, DecidableEq

/-- A live browser tab as enumerated by `chrome.windows.getAll`. -/
structure LiveTab where
  id : Nat
  url : String
  title : String
deriving Repr, DecidableEq

/-- A live browser window with its tab strip. -/
structure Window where
  id : Nat
  tabs : List LiveTab
deriving Repr, DecidableEq

/-- The live window/tab topology, in host enumeration order. -/
abbrev BrowserState := List Window

/-! ## Sorting (`sortTabs` / the sort step of `collectAndSortTabs`) -/

/-- Comparator on tab records: `(a, b) => a.tld.localeCompare(b.tld)`
interpreted as a less-or-equal test. -/
def tabLe (a b : Tab) : Bool := strLe a.tld b.tld

/-- Insert a tab into an already sorted list, after every element the
comparator places at-or-before it (realizing the stability that
`Array.prototype.sort` guarantees). -/
def insertSortedBy (le : Tab → Tab → Bool) (t : Tab) : List Tab → List Tab
  | [] => [t]
  | u :: us => if le u t then u :: insertSortedBy le t us else t :: u :: us

/-- Stable sort by a comparator; models `[...tabData].sort(sortFn)`. -/
def sortTabsBy (le : Tab → Tab → Bool) (l : List Tab) : List Tab :=
  l.foldl (fun acc t => insertSortedBy le t acc) []

namespace V3

/-- `sortTabs` from `background_v3.js`: look the method up in the
`sortMethods` table (which defines only `tld`) and fall back to the `tld`
comparator when the lookup misses, then sort a copy of the input. -/
def sortTabs (tabData : List Tab) (method : String) : List Tab :=
  let sortMethods : List (String × (Tab → Tab → Bool)) := [("tld", tabLe)]
  let sortFn := ((sortMethods.find? fun p => p.1 == method).map Prod.snd).getD tabLe
  sortTabsBy sortFn tabData

end V3

/-- The sort step of `collectAndSortTabs` in `background_v2.js` (also
`background_v4_working.js`): the list is sorted only when `method === 'tld'`;
any other method name leaves the collected order untouched. -/
def sortStepV2 (method : String) (tabData : List Tab) : List Tab :=
  if method == "tld" then sortTabsBy tabLe tabData else tabData

/-! ## Grouping (`groupTabsByTLD` / the `reduce` in the v2 handlers) -/

/-- One step of the grouping `reduce`: append the tab to its key's bucket,
creating the bucket at the end on first sight of the key (JavaScript object
string keys iterate in insertion order). -/
def addTab (acc : List (String × List Tab)) (t : Tab) : List (String × List Tab) :=
  match acc with
  | [] => [(t.tld, [t])]
  | (k, ts) :: rest =>
    if k = t.tld then (k, ts ++ [t]) :: rest else (k, ts) :: addTab rest t

/-- `groupTabsByTLD` from `background_v3.js`; the same `reduce` appears
inline in the `sortTabs`/`sortTabsMove` handlers of `background_v2.js`. -/
def groupTabsByTLD (tabData : List Tab) : List (String × List Tab) :=
  tabData.foldl addTab []

/-- The grouping pipeline of `handleSortTabs` in `background_v3.js`:
stable-sort the snapshot, then partition it by domain key. -/
def groupByDomain (snapshot : List Tab) (method : String) :
    List (String × List Tab) :=
  groupTabsByTLD (V3.sortTabs snapshot method)

example :
    (groupByDomain
      [⟨1, "", "https://z.com/", 1, "z.com", 0⟩,
       ⟨2, "", "https://a.com/", 1, "a.com", 0⟩,
       ⟨3, "", "https://z.com/x", 1, "z.com", 0⟩] "tld").map Prod.fst
    = ["a.com", "z.com"] := by decide

example :
    (groupByDomain
      [⟨1, "", "https://z.com/", 1, "z.com", 0⟩,
       ⟨2, "", "https://a.com/", 1, "a.com", 0⟩,
       ⟨3, "", "https://z.com/x", 1, "z.com", 0⟩] "tld").map
        (fun p => p.2.map Tab.id)
    = [[2], [1, 3]] := by decide

/-! ## Snapshot collection (`collectAndSortTabs` in `background_v2.js`) -/

/-- `tabOpenTimes[tab.id] || Date.now()`: the recorded creation time when
present and truthy (`0` is falsy in JavaScript), the current time
otherwise. -/
def openTimeOf (times : Nat → Option Nat) (now : Nat) (tabId : Nat) : Nat :=
  match times tabId with
  | some v => if v = 0 then now else v
  | none => now

/-- The collection loop of `collectAndSortTabs` in `background_v2.js`:
flatten all windows' tabs, skip tabs whose URL starts with `chrome://`,
skip tabs whose URL fails to parse (the per-tab `try`/`catch`), and build a
`Tab` record whose `tld` is the last two hostname labels. -/
def collectTabsV2 (s : BrowserState) (times : Nat → Option Nat) (now : Nat) :
    List Tab :=
  s.flatMap fun w =>
    w.tabs.filterMap fun t =>
      if ("chrome://".toList).isPrefixOf t.url.toList then none
      else
        match parseHostname t.url with
        | none => none
        | some h =>
          some ⟨t.id, t.title, t.url, w.id, lastTwoLabels h,
                openTimeOf times now t.id⟩

/-- `collectAndSortTabs(method)` from `background_v2.js`: collect, then sort
only when `method === 'tld'`. -/
def collectAndSortTabs (s : BrowserState) (times : Nat → Option Nat)
    (now : Nat) (method : String) : List Tab :=
  sortStepV2 method (collectTabsV2 s times now)

/-! ## CSV rendering (`convertToCSV`) -/

/-- Decimal digit character. -/
def digitChar (d : Nat) : Char := Char.ofNat (48 + d)

/-- Fuelled decimal rendering (structural so that it evaluates in the
kernel); fuel `n + 1` always suffices. -/
def natCharsAux : Nat → Nat → List Char
  | 0, _ => []
  | fuel + 1, n =>
    if n < 10 then [digitChar n]
    else natCharsAux fuel (n / 10) ++ [digitChar (n % 10)]

/-- Decimal rendering of a natural number, as JavaScript renders a
non-negative integer in string interpolation / `Array.prototype.join`. -/
def natChars (n : Nat) : List Char := natCharsAux (n + 1) n

/-- Left-pad with `'0'` to a given width. -/
def padZeros (k : Nat) (cs : List Char) : List Char :=
  List.replicate (k - cs.length) '0' ++ cs

/-- Layout of an ISO-8601 UTC timestamp `YYYY-MM-DDTHH:MM:SS.mmmZ` from its
seven numeric components. -/
def isoLayout (y m d hh mm ss ms3 : Nat) : List Char :=
  padZeros 4 (natChars y) ++ '-' :: padZeros 2 (natChars m) ++
    '-' :: padZeros 2 (natChars d) ++ 'T' :: padZeros 2 (natChars hh) ++
    ':' :: padZeros 2 (natChars mm) ++ ':' :: padZeros 2 (natChars ss) ++
    '.' :: padZeros 3 (natChars ms3) ++ ['Z']

/-- Days-since-epoch shifted to the 0000-03-01 era origin. -/
def isoZ (ms : Nat) : Nat := ms / 1000 / 86400 + 719468

/-- Day of era. -/
def isoDoe (ms : Nat) : Nat := isoZ ms % 146097

/-- Year of era. -/
def isoYoe (ms : Nat) : Nat :=
  (isoDoe ms - isoDoe ms / 1460 + isoDoe ms / 36524 - isoDoe ms / 146096) / 365

/-- Day of year (March-based). -/
def isoDoy (ms : Nat) : Nat :=
  isoDoe ms - (365 * isoYoe ms + isoYoe ms / 4 - isoYoe ms / 100)

/-- Month index (March-based). -/
def isoMp (ms : Nat) : Nat := (5 * isoDoy ms + 2) / 153

/-- Civil day of month. -/
def isoDay (ms : Nat) : Nat := isoDoy ms - (153 * isoMp ms + 2) / 5 + 1

/-- Civil month. -/
def isoMonth (ms : Nat) : Nat :=
  if isoMp ms < 10 then isoMp ms + 3 else isoMp ms - 9

/-- Civil year. -/
def isoYear (ms : Nat) : Nat :=
  isoYoe ms + (isoZ ms / 146097) * 400 + (if isoMonth ms ≤ 2 then 1 else 0)

/-- Model of the host's `new Date(ms).toISOString()` for non-negative `ms`:
the proleptic-Gregorian UTC timestamp (civil date computed by the standard
days-to-civil algorithm). -/
def isoChars (ms : Nat) : List Char :=
  isoLayout (isoYear ms) (isoMonth ms) (isoDay ms) (ms / 1000 / 3600 % 24)
    (ms / 1000 / 60 % 60) (ms / 1000 % 60) (ms % 1000)

example : (isoChars 0).asString = "1970-01-01T00:00:00.000Z" := by decide
example : (isoChars 1700000000123).asString = "2023-11-14T22:13:20.123Z" := by decide

/-- `.replace(/"/g, '""')`: double every double-quote character. -/
def escapeQuotes : List Char → List Char
  | [] => []
  | c :: cs => if c = '"' then '"' :: '"' :: escapeQuotes cs else c :: escapeQuotes cs

/-- The six rendered fields of one data row of `convertToCSV`
(`background_v4_working.js`, identically `background_v2.js` /
`background_v3.js`): numeric id, double-quoted title with quotes doubled,
double-quoted URL **as-is**, bare TLD, numeric window id, ISO timestamp. -/
def csvFields (t : Tab) : List (List Char) :=
  [natChars t.id,
   '"' :: (escapeQuotes t.title.toList ++ ['"']),
   '"' :: (t.url.toList ++ ['"']),
   t.tld.toList,
   natChars t.windowId,
   isoChars t.openTime]

/-- The header fields `["ID", "Title", "URL", "TLD", "Window ID", "Open Time"]`. -/
def headerFields : List (List Char) :=
  ["ID", "Title", "URL", "TLD", "Window ID", "Open Time"].map String.toList

/-- `convertToCSV`: header row plus one row per record, each row the
comma-join of its fields, rows newline-joined. -/
def convertToCSV (tabData : List Tab) : String :=
  (List.intercalate ['\n']
    ((headerFields :: tabData.map csvFields).map (List.intercalate [',']))).asString

example :
    convertToCSV [⟨1, "hi", "https://a.com/", 2, "a.com", 0⟩]
    = "ID,Title,URL,TLD,Window ID,Open Time\n1,\"hi\",\"https://a.com/\",a.com,2,1970-01-01T00:00:00.000Z" := by
  decide

/-! ## Export handlers (`handleExportCSV`) -/

namespace V3

/-- `handleExportCSV` from `background_v3.js`.  It reads the persisted
`originalTabs` record and consults nothing else (the live browser state and
open-time records are parameters only to exhibit what the function ignores);
a missing or empty persisted snapshot is an error, otherwise the persisted
snapshot is converted and the download started.  The success payload pairs
the CSV content handed to `downloadCSV` with the returned message. -/
def handleExportCSV (persisted : Option (List Tab)) (_s : BrowserState)
    (_times : Nat → Option Nat) (_now : Nat) : Except String (String × String) :=
  match persisted with
  | none => .error "No tab data found to export."
  | some originalTabs =>
    if originalTabs.length = 0 then .error "No tab data found to export."
    else .ok (convertToCSV originalTabs, "CSV exported successfully.")

end V3

namespace V2

/-- `handleExportCSV` from `background_v2.js` (identical in
`background_v4_working.js`).  It always collects a fresh snapshot with
`collectAndSortTabs()` (default method `'tld'`) and never reads the
persisted `originalTabs` record (the `persisted` parameter only exhibits
what is ignored); an empty collection is an error. -/
def handleExportCSV (_persisted : Option (List Tab)) (s : BrowserState)
    (times : Nat → Option Nat) (now : Nat) : Except String (String × String) :=
  let tabData := collectAndSortTabs s times now "tld"
  if tabData.length = 0 then .error "No tabs available to export."
  else .ok (convertToCSV tabData, "CSV exported successfully.")

end V2

/-! ## Incremental-move reconciler (`organizeTabsByTLD`, `background_v2.js`) -/

/-- The existing-window test of the assignment loop:
`window.tabs.some(t => new URL(t.url).hostname.split('.').slice(-2).join('.') === tld)`
with the per-tab `catch` returning `false`. -/
def windowMatches (w : Window) (tld : String) : Bool :=
  w.tabs.any fun t =>
    match parseHostname t.url with
    | some h => lastTwoLabels h == tld
    | none => false

/-- The assignment loop of `organizeTabsByTLD`: for each domain key in order,
scan the `existingWindows` map (initial window enumeration order, created
windows appended) and take the **first** window containing a tab of that key;
otherwise create a new unfocused window (modelled with a fresh id from
`nextId` and an empty tab strip — its initial new-tab page is an internal
`chrome://` page outside the snapshot domain) and append it to the map.
A window claimed by one key is **not** removed from the map.  Returns the
assignments in key order, the created window ids in creation order, and the
next fresh id. -/
def assignLoop : List String → List Window → Nat →
    List (String × Nat) × List Nat × Nat
  | [], _, nextId => ([], [], nextId)
  | tld :: rest, existing, nextId =>
    match existing.find? (fun w => windowMatches w tld) with
    | some w =>
      let r := assignLoop rest existing nextId
      ((tld, w.id) :: r.1, r.2)
    | none =>
      let r := assignLoop rest (existing ++ [⟨nextId, []⟩]) (nextId + 1)
      ((tld, nextId) :: r.1, nextId :: r.2.1, r.2.2)

/-- Tabs of the live window with the given id, as `chrome.tabs.query({windowId})`
reports them (empty for an absent window). -/
def windowTabs (s : BrowserState) (wid : Nat) : List LiveTab :=
  ((s.find? fun w => w.id == wid).map Window.tabs).getD []

/-- `chrome.tabs.move(tabId, {windowId: target, index: -1})`: detach the tab
from wherever it currently lives and append it to the target window's strip.
A missing tab or missing target window makes the call fail; that failure is
caught and logged by the move loop, so it is modelled as leaving the state
unchanged. -/
def moveTabInState (s : BrowserState) (tabId : Nat) (target : Nat) :
    BrowserState :=
  match s.flatMap (fun w => w.tabs.filter fun t => t.id == tabId) with
  | [] => s
  | t :: _ =>
    if s.any (fun w => w.id == target) then
      (s.map fun w => { w with tabs := w.tabs.filter fun u => !(u.id == tabId) }).map
        fun w => if w.id == target then { w with tabs := w.tabs ++ [t] } else w
    else s

/-- The move loop of `organizeTabsByTLD`: for every group in entry order and
every tab in group order, move the tab to the group's assigned window unless
the snapshot already placed it there (`tab.windowId !== targetWindowId`). -/
def movePhase (groups : List (String × List Tab))
    (assignments : List (String × Nat)) (s : BrowserState) : BrowserState :=
  groups.foldl
    (fun st g =>
      match (assignments.find? fun p => p.1 == g.1).map Prod.snd with
      | none => st
      | some target =>
        g.2.foldl
          (fun st2 tab =>
            if tab.windowId == target then st2
            else moveTabInState st2 tab.id target)
          st)
    s

/-- The reap loop of `organizeTabsByTLD`: re-query each candidate window in
map order and remove it when it now holds zero tabs.  Returns the resulting
state together with the ids for which a close was issued. -/
def reapWindows : List Nat → BrowserState → BrowserState × List Nat
  | [], s => (s, [])
  | c :: cs, s =>
    if (windowTabs s c).isEmpty then
      let r := reapWindows cs (s.filter fun w => !(w.id == c))
      (r.1, c :: r.2)
    else reapWindows cs s

/-- `organizeTabsByTLD(tldToTabs)` from `background_v2.js`: assignment phase
over the stale window snapshot, move phase on the live state, reap phase over
all candidate windows (original snapshot windows plus created ones).  Returns
the final state and the next fresh window id. -/
def organizeTabsByTLD (groups : List (String × List Tab)) (s : BrowserState)
    (nextId : Nat) : BrowserState × Nat :=
  let a := assignLoop (groups.map Prod.fst) s nextId
  let s1 := s ++ a.2.1.map fun i => ⟨i, []⟩
  let s2 := movePhase groups a.1 s1
  let candidates := (s.map Window.id) ++ a.2.1
  ((reapWindows candidates s2).1, a.2.2)

/-- The `sortTabs` message action of `background_v2.js`: collect-and-sort,
persist the snapshot to `originalTabs`, group, reconcile with
`organizeTabsByTLD`, and return the success string.  The middle component is
the value written to persistent storage (`none` = no write). -/
def sortTabsActionV2 (s : BrowserState) (times : Nat → Option Nat) (now : Nat)
    (nextId : Nat) (method : String) :
    (BrowserState × Nat) × Option (List Tab) × String :=
  let tabData := collectAndSortTabs s times now method
  let tldToTabs := groupTabsByTLD tabData
  (organizeTabsByTLD tldToTabs s nextId, some tabData, "Tabs sorted successfully.")

/-- The `sortTabsMove` message action of `background_v2.js`: identical
pipeline except that nothing is persisted and the success string differs. -/
def sortTabsMoveActionV2 (s : BrowserState) (times : Nat → Option Nat)
    (now : Nat) (nextId : Nat) (method : String) :
    (BrowserState × Nat) × Option (List Tab) × String :=
  let tabData := collectAndSortTabs s times now method
  let tldToTabs := groupTabsByTLD tabData
  (organizeTabsByTLD tldToTabs s nextId, none, "Tabs sorted successfully (Move).")

/-! ## Recreate reconciler (`background_v4_working.js`) -/

/-- One host mutation issued by the recreate pipeline, with whether the host
reported success. -/
inductive REvent where
  | create (winId : Nat) (urls : List String) (ok : Bool)
  | close (winId : Nat) (ok : Bool)
deriving Repr, DecidableEq

/-- Whether an event is a window creation. -/
def REvent.isCreate : REvent → Bool
  | .create _ _ _ => true
  | .close _ _ => false

/-- The ids of the windows `chrome.windows.create` hands back for the batch
of `tldToTabs.length` creations (fresh ids, counting from `nextId`). -/
def newWindowIds (count : Nat) (nextId : Nat) : List Nat :=
  (List.range count).map fun i => nextId + i

/-- `closeOriginalWindows` from `background_v4_working.js`: filter out ids
that are also new-window ids, then issue `chrome.windows.remove` for every
remaining id.  All removes are issued by the `map` before `Promise.all` is
awaited, so each close is attempted regardless of the outcome of any other;
`closeFails` is the host's per-window failure oracle, and the surrounding
`catch` swallows any aggregate rejection. -/
def closeOriginalWindows (originalWindowIds newIds : List Nat)
    (closeFails : Nat → Bool) : List REvent :=
  (originalWindowIds.filter fun id => !(newIds.contains id)).map
    fun id => .close id (!(closeFails id))

/-- `openWindowsByTLD` from `background_v4_working.js` as its trace of host
mutations: one window creation per group (issued together and awaited with
`Promise.all`), then — only when every creation succeeded — the close batch
for the pre-existing window ids.  When any creation fails, `Promise.all`
rejects, the `catch` rethrows, and `closeOriginalWindows` is never reached. -/
def openWindowsByTLD (tldToTabs : List (String × List Tab))
    (originalWindowIds : List Nat) (nextId : Nat)
    (createFails : Nat → Bool) (closeFails : Nat → Bool) : List REvent :=
  let creates := tldToTabs.enum.map fun p =>
    REvent.create (nextId + p.1) (p.2.2.map Tab.url) (!(createFails p.1))
  if (List.range tldToTabs.length).any createFails then creates
  else creates ++
    closeOriginalWindows originalWindowIds (newWindowIds tldToTabs.length nextId)
      closeFails

/-- The ids for which a close was issued in a trace. -/
def closedIds (tr : List REvent) : List Nat :=
  tr.filterMap fun e =>
    match e with
    | .close id _ => some id
    | .create _ _ _ => none

/-! ## A CSV line parser (for the round-trip property)

`parseCSVChars` is an RFC-4180-style field parser for one line: fields are
comma-separated; a `"` toggles into quoted mode, where `""` denotes an
escaped quote character.  It is the independent reader against which the
output of `convertToCSV` is checked. -/

/-- Lexer mode of the CSV field parser: outside quotes, inside quotes, or
just after a quote character seen inside quotes (which either escapes a
second quote or closes the quoted run). -/
inductive CSVMode where
  | plain
  | quoted
  | closing
deriving Repr, DecidableEq

/-- Parse the fields of one CSV line; `acc` holds the reversed characters of
the current field. -/
def parseCSVChars : List Char → CSVMode → List Char → List (List Char)
  | [], _, acc => [acc.reverse]
  | c :: cs, .plain, acc =>
    if c = ',' then acc.reverse :: parseCSVChars cs .plain []
    else if c = '"' then parseCSVChars cs .quoted acc
    else parseCSVChars cs .plain (c :: acc)
  | c :: cs, .quoted, acc =>
    if c = '"' then parseCSVChars cs .closing acc
    else parseCSVChars cs .quoted (c :: acc)
  | c :: cs, .closing, acc =>
    if c = '"' then parseCSVChars cs .quoted ('"' :: acc)
    else if c = ',' then acc.reverse :: parseCSVChars cs .plain []
    else parseCSVChars cs .plain (c :: acc)

example :
    parseCSVChars "1,\"a\"\"b\",x".toList .plain []
    = ["1".toList, "a\"b".toList, "x".toList] := by decide

example :
    (parseCSVChars (List.intercalate [','] (csvFields ⟨1, "a\"b", "https://x.com/", 2, "x.com", 0⟩)) .plain []).map List.asString
    = ["1", "a\"b", "https://x.com/", "x.com", "2", "1970-01-01T00:00:00.000Z"] := by decide

/-! ## Claim C5: the domain-key extractor -/

/-- C5.  For every URL whose hostname parses with at least two dot-separated
labels, `extractTLD` returns exactly the last two labels joined by a dot;
for a single-label hostname it returns the hostname unchanged; and for
every input that fails to parse it returns the sentinel `"unknown"`. -/
theorem extractTLD_spec (url : String) :
    (∀ h, parseHostname url = some h →
      (2 ≤ (hostLabels h).length →
        extractTLD url =
          (List.intercalate ['.']
            ((hostLabels h).drop ((hostLabels h).length - 2))).asString) ∧
      ((hostLabels h).length = 1 → extractTLD url = h)) ∧
    (parseHostname url = none → extractTLD url = "unknown") := by
  refine ⟨fun h hp => ⟨fun hlen => ?_, fun hlen => ?_⟩, fun hp => ?_⟩
  · rw [extractTLD, hp]
    show (if (hostLabels h).length > 1 then lastTwoLabels h else h) = _
    rw [if_pos (by omega)]
    rfl
  · rw [extractTLD, hp]
    show (if (hostLabels h).length > 1 then lastTwoLabels h else h) = _
    rw [if_neg (by omega)]
  · rw [extractTLD, hp]

/-- Witness for C5 evaluated at a multi-label URL and at an unparsable
input. -/
theorem extractTLD_spec_witness :
    extractTLD "https://mail.example.com/z" = "example.com" ∧
    extractTLD "not a url" = "unknown" := by
  constructor
  · exact (((extractTLD_spec "https://mail.example.com/z").1 "mail.example.com"
      (by decide)).1 (by decide)).trans (by decide)
  · exact (extractTLD_spec "not a url").2 (by decide)

/-! ## Order and sort lemmas -/

/-- `V3.sortTabs` always resolves to the `tld` comparator, whatever the
method name: the `sortMethods` table defines only `tld` and the lookup
misses fall back to it. -/
theorem sortTabs_eq_sortTabsBy (tabData : List Tab) (method : String) :
    V3.sortTabs tabData method = sortTabsBy tabLe tabData := by
  show sortTabsBy _ _ = sortTabsBy _ _
  cases h : (("tld", tabLe) : String × (Tab → Tab → Bool)).1 == method <;>
    simp [V3.sortTabs, List.find?, h]

/-- `charListLe` is reflexive. -/
theorem charListLe_refl (a : List Char) : charListLe a a = true := by
  induction a with
  | nil => rfl
  | cons x xs ih => simp [charListLe, ih]

/-- `charListLe` is total. -/
theorem charListLe_total (a b : List Char) :
    charListLe a b = true ∨ charListLe b a = true := by
  induction a generalizing b with
  | nil => left; rfl
  | cons x xs ih =>
    cases b with
    | nil => right; rfl
    | cons y ys =>
      by_cases hxy : x = y
      · subst hxy
        rcases ih ys with h | h
        · left; simp [charListLe, h]
        · right; simp [charListLe, h]
      · rcases lt_trichotomy x y with h | h | h
        · left; simp [charListLe, hxy, h]
        · exact absurd h hxy
        · right; simp [charListLe, Ne.symm hxy, h]

/-- `charListLe` is transitive. -/
theorem charListLe_trans {a b c : List Char} (h1 : charListLe a b = true)
    (h2 : charListLe b c = true) : charListLe a c = true := by
  induction a generalizing b c with
  | nil => rfl
  | cons x xs ih =>
    cases b with
    | nil => exact absurd h1 (by simp [charListLe])
    | cons y ys =>
      cases c with
      | nil => exact absurd h2 (by simp [charListLe])
      | cons z zs =>
        by_cases hxy : x = y
        · subst hxy
          by_cases hxz : x = z
          · subst hxz
            simp only [charListLe, if_pos rfl] at h1 h2 ⊢
            exact ih h1 h2
          · simp only [charListLe, if_neg hxz] at h2 ⊢
            exact h2
        · by_cases hyz : y = z
          · subst hyz
            simp only [charListLe, if_neg hxy] at h1 ⊢
            exact h1
          · simp only [charListLe, if_neg hxy] at h1
            simp only [charListLe, if_neg hyz] at h2
            rw [decide_eq_true_eq] at h1 h2
            have hxz2 : x < z := lt_trans h1 h2
            simp [charListLe, ne_of_lt hxz2, hxz2]

/-- `charListLe` is antisymmetric. -/
theorem charListLe_antisymm {a b : List Char} (h1 : charListLe a b = true)
    (h2 : charListLe b a = true) : a = b := by
  induction a generalizing b with
  | nil =>
    cases b with
    | nil => rfl
    | cons y ys => simp [charListLe] at h2
  | cons x xs ih =>
    cases b with
    | nil => simp [charListLe] at h1
    | cons y ys =>
      by_cases hxy : x = y
      · subst hxy
        simp only [charListLe, if_pos rfl] at h1 h2
        rw [ih h1 h2]
      · simp only [charListLe, if_neg hxy, if_neg (Ne.symm hxy),
          decide_eq_true_eq] at h1 h2
        exact absurd h2 (lt_asymm h1)

/-- Unfolding `sortTabsBy` over a final element. -/
theorem sortTabsBy_append_singleton (l : List Tab) (t : Tab) :
    sortTabsBy tabLe (l ++ [t]) = insertSortedBy tabLe t (sortTabsBy tabLe l) := by
  simp [sortTabsBy, List.foldl_append]

/-- Insertion permutes with consing. -/
theorem insertSortedBy_perm (t : Tab) (l : List Tab) :
    (insertSortedBy tabLe t l).Perm (t :: l) := by
  induction l with
  | nil => exact List.Perm.refl _
  | cons u us ih =>
    by_cases h : tabLe u t = true
    · simp only [insertSortedBy, if_pos h]
      exact (ih.cons u).trans (List.Perm.swap t u us)
    · simp only [insertSortedBy, if_neg h]
      exact List.Perm.refl _

/-- The stable insertion sort permutes its input. -/
theorem sortTabsBy_perm (l : List Tab) : (sortTabsBy tabLe l).Perm l := by
  induction l using List.reverseRecOn with
  | nil => exact List.Perm.refl _
  | append_singleton l t ih =>
    rw [sortTabsBy_append_singleton]
    exact ((insertSortedBy_perm t _).trans (ih.cons t)).trans
      (List.perm_append_singleton t l).symm

/-- Members of an insertion. -/
theorem mem_insertSortedBy {x t : Tab} {l : List Tab}
    (h : x ∈ insertSortedBy tabLe t l) : x = t ∨ x ∈ l := by
  have := (insertSortedBy_perm t l).mem_iff.mp h
  simpa using this

/-- Insertion preserves sortedness under the `tabLe` comparator. -/
theorem insertSortedBy_sorted (t : Tab) (l : List Tab)
    (h : List.Pairwise (fun a b => tabLe a b = true) l) :
    List.Pairwise (fun a b => tabLe a b = true) (insertSortedBy tabLe t l) := by
  induction l with
  | nil => simp [insertSortedBy]
  | cons u us ih =>
    rcases List.pairwise_cons.mp h with ⟨hu, hus⟩
    by_cases hut : tabLe u t = true
    · simp only [insertSortedBy, if_pos hut]
      refine List.pairwise_cons.mpr ⟨fun x hx => ?_, ih hus⟩
      rcases mem_insertSortedBy hx with rfl | hx2
      · exact hut
      · exact hu x hx2
    · simp only [insertSortedBy, if_neg hut]
      have htu : tabLe t u = true := by
        rcases charListLe_total u.tld.toList t.tld.toList with h1 | h1
        · exact absurd h1 hut
        · exact h1
      refine List.pairwise_cons.mpr ⟨fun x hx => ?_, h⟩
      rcases List.mem_cons.mp hx with rfl | hx2
      · exact htu
      · exact charListLe_trans htu (hu x hx2)

/-- The stable insertion sort is sorted under the `tabLe` comparator. -/
theorem sortTabsBy_sorted (l : List Tab) :
    List.Pairwise (fun a b => tabLe a b = true) (sortTabsBy tabLe l) := by
  induction l using List.reverseRecOn with
  | nil => simp [sortTabsBy]
  | append_singleton l t ih =>
    rw [sortTabsBy_append_singleton]
    exact insertSortedBy_sorted t _ ih

/-- Inserting into a sorted list places the new element after every element
with the same key, so filtering by that key appends it at the end. -/
theorem filter_insertSortedBy (k : String) (t : Tab) (l : List Tab)
    (hs : List.Pairwise (fun a b => tabLe a b = true) l) :
    (insertSortedBy tabLe t l).filter (fun x => x.tld == k)
      = if t.tld == k
        then l.filter (fun x => x.tld == k) ++ [t]
        else l.filter (fun x => x.tld == k) := by
  induction l with
  | nil =>
    cases h : (t.tld == k) <;> simp [insertSortedBy, List.filter, h]
  | cons u us ih =>
    rcases List.pairwise_cons.mp hs with ⟨hu, hus⟩
    by_cases hut : tabLe u t = true
    · simp only [insertSortedBy, if_pos hut, List.filter_cons]
      rw [ih hus]
      cases h1 : (u.tld == k) <;> cases h2 : (t.tld == k) <;>
        simp [h1, h2, List.filter_cons]
    · have hknone : (t.tld == k) = true →
          ∀ x ∈ u :: us, (x.tld == k) = false := by
        intro htk x hx
        by_contra hxk
        have hxk2 : (x.tld == k) = true := by
          cases hxk3 : (x.tld == k)
          · exact absurd hxk3 hxk
          · rfl
        have hxt : x.tld = t.tld := by
          have e1 : x.tld = k := by simpa using hxk2
          have e2 : t.tld = k := by simpa using htk
          rw [e1, e2]
        have hux : tabLe u x = true := by
          rcases List.mem_cons.mp hx with rfl | hx2
          · exact charListLe_refl _
          · exact hu x hx2
        have : tabLe u t = true := by
          have := hux
          unfold tabLe strLe at this ⊢
          rwa [hxt] at this
        exact hut this
      simp only [insertSortedBy, if_neg hut]
      cases h2 : (t.tld == k)
      · simp [List.filter_cons, h2]
      · have hnil : (u :: us).filter (fun x => x.tld == k) = [] :=
          List.filter_eq_nil_iff.mpr fun x hx => by
            simp [hknone h2 x hx]
        rw [List.filter_cons, hnil]
        simp [h2]

/-- Stability of the sort: filtering the sorted list by one key yields the
same list as filtering the input, in the original relative order. -/
theorem sortTabsBy_filter_key (l : List Tab) (k : String) :
    (sortTabsBy tabLe l).filter (fun x => x.tld == k)
      = l.filter (fun x => x.tld == k) := by
  induction l using List.reverseRecOn with
  | nil => rfl
  | append_singleton l t ih =>
    rw [sortTabsBy_append_singleton,
      filter_insertSortedBy k t _ (sortTabsBy_sorted l), ih, List.filter_append]
    cases h : (t.tld == k) <;> simp [List.filter_cons, h]

/-! ## Grouping lemmas and claim C4 -/

/-- Unfolding `groupTabsByTLD` over a final element. -/
theorem groupTabsByTLD_append_singleton (l : List Tab) (t : Tab) :
    groupTabsByTLD (l ++ [t]) = addTab (groupTabsByTLD l) t := by
  simp [groupTabsByTLD, List.foldl_append]

/-- `addTab` keeps the key sequence, appending the new key at the end on
first sight. -/
theorem addTab_keys (acc : List (String × List Tab)) (t : Tab) :
    (addTab acc t).map Prod.fst =
      if t.tld ∈ acc.map Prod.fst then acc.map Prod.fst
      else acc.map Prod.fst ++ [t.tld] := by
  induction acc with
  | nil => simp [addTab]
  | cons q rest ih =>
    obtain ⟨k, ts⟩ := q
    by_cases hk : k = t.tld
    · subst hk
      simp [addTab]
    · by_cases hm : t.tld ∈ rest.map Prod.fst <;>
        simp [addTab, hk, Ne.symm hk, hm, ih]

/-- The produced keys never repeat. -/
theorem groupTabsByTLD_keys_nodup (l : List Tab) :
    ((groupTabsByTLD l).map Prod.fst).Nodup := by
  induction l using List.reverseRecOn with
  | nil => simp [groupTabsByTLD]
  | append_singleton l t ih =>
    rw [groupTabsByTLD_append_singleton, addTab_keys]
    by_cases hm : t.tld ∈ (groupTabsByTLD l).map Prod.fst
    · simp [hm, ih]
    · simp [hm, ih, List.nodup_append]

/-- Every tab's key occurs among the produced keys. -/
theorem mem_keys_of_mem (l : List Tab) :
    ∀ x ∈ l, x.tld ∈ (groupTabsByTLD l).map Prod.fst := by
  induction l using List.reverseRecOn with
  | nil => intro x hx; cases hx
  | append_singleton l t ih =>
    intro x hx
    rw [groupTabsByTLD_append_singleton, addTab_keys]
    rcases List.mem_append.mp hx with hx1 | hx2
    · have hx3 := ih x hx1
      by_cases hm : t.tld ∈ (groupTabsByTLD l).map Prod.fst <;> simp [hm, hx3]
    · have hxt : x = t := by simpa using hx2
      subst hxt
      by_cases hm : x.tld ∈ (groupTabsByTLD l).map Prod.fst <;> simp [hm]

/-- Every produced key is some tab's key. -/
theorem exists_mem_of_mem_keys (l : List Tab) :
    ∀ k ∈ (groupTabsByTLD l).map Prod.fst, ∃ x ∈ l, x.tld = k := by
  induction l using List.reverseRecOn with
  | nil => intro k hk; simp [groupTabsByTLD] at hk
  | append_singleton l t ih =>
    intro k hk
    rw [groupTabsByTLD_append_singleton, addTab_keys] at hk
    by_cases hm : t.tld ∈ (groupTabsByTLD l).map Prod.fst
    · rw [if_pos hm] at hk
      obtain ⟨x, hx, he⟩ := ih k hk
      exact ⟨x, by simp [hx], he⟩
    · rw [if_neg hm] at hk
      rcases List.mem_append.mp hk with hk1 | hk2
      · obtain ⟨x, hx, he⟩ := ih k hk1
        exact ⟨x, by simp [hx], he⟩
      · have hke : k = t.tld := by simpa using hk2
        exact ⟨t, by simp, hke.symm⟩

/-- How `addTab` transforms the bucket behind each key, assuming the
accumulator's buckets realize a key-indexed function and its keys are
unique. -/
theorem addTab_snd (acc : List (String × List Tab)) (t : Tab)
    (hnd : (acc.map Prod.fst).Nodup) (f : String → List Tab)
    (hacc : ∀ p ∈ acc, p.2 = f p.1)
    (hnew : t.tld ∉ acc.map Prod.fst → f t.tld = []) :
    ∀ p ∈ addTab acc t,
      p.2 = if p.1 = t.tld then f p.1 ++ [t] else f p.1 := by
  induction acc with
  | nil =>
    intro p hp
    have hp2 : p = (t.tld, [t]) := by simpa [addTab] using hp
    subst hp2
    simp [hnew (by simp)]
  | cons q rest ih =>
    obtain ⟨k, ts⟩ := q
    rw [List.map_cons] at hnd
    have hk0 : k ∉ rest.map Prod.fst := (List.nodup_cons.mp hnd).1
    have hnd2 : (rest.map Prod.fst).Nodup := (List.nodup_cons.mp hnd).2
    intro p hp
    by_cases hk : k = t.tld
    · have haddeq : addTab ((k, ts) :: rest) t = (k, ts ++ [t]) :: rest := by
        simp [addTab, hk]
      rw [haddeq] at hp
      rcases List.mem_cons.mp hp with rfl | hp2
      · have hts : ts = f k := hacc (k, ts) (by simp)
        show ts ++ [t] = if k = t.tld then f k ++ [t] else f k
        rw [if_pos hk, hts]
      · have hkp : p.1 ≠ t.tld := by
          intro he
          have hmem : p.1 ∈ rest.map Prod.fst := List.mem_map.mpr ⟨p, hp2, rfl⟩
          rw [he, ← hk] at hmem
          exact hk0 hmem
        rw [if_neg hkp]
        exact hacc p (by simp [hp2])
    · have haddeq : addTab ((k, ts) :: rest) t = (k, ts) :: addTab rest t := by
        simp [addTab, hk]
      rw [haddeq] at hp
      rcases List.mem_cons.mp hp with rfl | hp2
      · show ts = if k = t.tld then f k ++ [t] else f k
        rw [if_neg hk]
        exact hacc (k, ts) (by simp)
      · refine ih hnd2 (fun q hq => hacc q (by simp [hq])) ?_ p hp2
        intro hnm
        apply hnew
        intro hmem
        rw [List.map_cons] at hmem
        rcases List.mem_cons.mp hmem with he | hm2
        · exact hk he.symm
        · exact hnm hm2

/-- Each produced bucket is exactly the filter of the input by its key, in
input order. -/
theorem groupTabsByTLD_snd (l : List Tab) :
    ∀ p ∈ groupTabsByTLD l, p.2 = l.filter (fun x => x.tld == p.1) := by
  induction l using List.reverseRecOn with
  | nil => intro p hp; simp [groupTabsByTLD] at hp
  | append_singleton l t ih =>
    intro p hp
    rw [groupTabsByTLD_append_singleton] at hp
    have hnew : t.tld ∉ (groupTabsByTLD l).map Prod.fst →
        l.filter (fun x => x.tld == t.tld) = [] := by
      intro hnm
      refine List.filter_eq_nil_iff.mpr fun x hx hxe => ?_
      have hxk : x.tld = t.tld := by simpa using hxe
      exact hnm (hxk ▸ mem_keys_of_mem l x hx)
    have h2 := addTab_snd (groupTabsByTLD l) t (groupTabsByTLD_keys_nodup l)
      (fun k => l.filter (fun x => x.tld == k)) ih hnew p hp
    rw [h2, List.filter_append]
    by_cases hpt : p.1 = t.tld
    · rw [if_pos hpt]
      have : (t.tld == p.1) = true := by simp [hpt]
      simp [List.filter_cons, this]
    · rw [if_neg hpt]
      have : (t.tld == p.1) = false := by simp [Ne.symm hpt]
      simp [List.filter_cons, this]

/-- `addTab` appends the new tab somewhere inside the flattened buckets. -/
theorem join_addTab (acc : List (String × List Tab)) (t : Tab) :
    ((addTab acc t).flatMap Prod.snd).Perm ((acc.flatMap Prod.snd) ++ [t]) := by
  induction acc with
  | nil =>
    simp only [addTab, List.flatMap_cons, List.flatMap_nil, List.append_nil,
      List.nil_append]
    exact List.Perm.refl _
  | cons q rest ih =>
    obtain ⟨k, ts⟩ := q
    by_cases hk : k = t.tld
    · simp only [addTab, if_pos hk, List.flatMap_cons]
      have e1 : (ts ++ [t]) ++ rest.flatMap Prod.snd
          = ts ++ ([t] ++ rest.flatMap Prod.snd) := by rw [List.append_assoc]
      have e2 : (ts ++ rest.flatMap Prod.snd) ++ [t]
          = ts ++ (rest.flatMap Prod.snd ++ [t]) := by rw [List.append_assoc]
      rw [e1, e2]
      exact List.Perm.append_left ts List.perm_append_comm
    · simp only [addTab, if_neg hk, List.flatMap_cons]
      have e2 : (ts ++ rest.flatMap Prod.snd) ++ [t]
          = ts ++ (rest.flatMap Prod.snd ++ [t]) := by rw [List.append_assoc]
      rw [e2]
      exact List.Perm.append_left ts ih

/-- The flattened buckets permute the input. -/
theorem join_groupTabsByTLD (l : List Tab) :
    ((groupTabsByTLD l).flatMap Prod.snd).Perm l := by
  induction l using List.reverseRecOn with
  | nil => exact List.Perm.refl _
  | append_singleton l t ih =>
    rw [groupTabsByTLD_append_singleton]
    exact (join_addTab _ t).trans (ih.append_right [t])

/-- Grouping a key-sorted list yields strictly increasing keys. -/
theorem groupTabsByTLD_keys_sorted (l : List Tab)
    (hs : List.Pairwise (fun a b => tabLe a b = true) l) :
    List.Pairwise
      (fun a b : String => charListLe a.toList b.toList = true ∧ a ≠ b)
      ((groupTabsByTLD l).map Prod.fst) := by
  induction l using List.reverseRecOn with
  | nil => simp [groupTabsByTLD]
  | append_singleton l t ih =>
    have hsl : List.Pairwise (fun a b => tabLe a b = true) l :=
      hs.sublist (List.sublist_append_left l [t])
    have hle : ∀ x ∈ l, tabLe x t = true := by
      have hsp := List.pairwise_append.mp hs
      exact fun x hx => hsp.2.2 x hx t (by simp)
    rw [groupTabsByTLD_append_singleton, addTab_keys]
    by_cases hm : t.tld ∈ (groupTabsByTLD l).map Prod.fst
    · rw [if_pos hm]
      exact ih hsl
    · rw [if_neg hm]
      rw [List.pairwise_append]
      refine ⟨ih hsl, by simp, ?_⟩
      intro k hk b hb
      have hbt : b = t.tld := by simpa using hb
      subst hbt
      obtain ⟨x, hx, hxk⟩ := exists_mem_of_mem_keys l k hk
      constructor
      · have hxt := hle x hx
        unfold tabLe strLe at hxt
        rwa [hxk] at hxt
      · intro he
        rw [he] at hk
        exact hm hk

/-- C4.  `groupByDomain` (the sort-then-group pipeline of
`background_v3.js`) is a partition of the snapshot for every method name:
the flattened buckets permute the snapshot (each tab exactly once), the
group keys are strictly increasing in the lexicographic order, and each
bucket equals the snapshot filtered by its key — so tabs sharing a key keep
their original relative snapshot order. -/
theorem groupByDomain_partition (snapshot : List Tab) (method : String) :
    ((groupByDomain snapshot method).flatMap Prod.snd).Perm snapshot ∧
    List.Pairwise
      (fun a b : String => charListLe a.toList b.toList = true ∧ a ≠ b)
      ((groupByDomain snapshot method).map Prod.fst) ∧
    ∀ p ∈ groupByDomain snapshot method,
      p.2 = snapshot.filter (fun x => x.tld == p.1) := by
  unfold groupByDomain
  rw [sortTabs_eq_sortTabsBy]
  refine ⟨(join_groupTabsByTLD _).trans (sortTabsBy_perm snapshot),
    groupTabsByTLD_keys_sorted _ (sortTabsBy_sorted snapshot), fun p hp => ?_⟩
  rw [groupTabsByTLD_snd _ p hp, sortTabsBy_filter_key]

/-! ## CSV round-trip lemmas and claim C6 -/

/-- Characters that cannot disturb an unquoted CSV context: anything except
the separator, the quote and the newline. -/
def csvSafeChar (c : Char) : Bool := !(c == ',') && !(c == '"') && !(c == '\n')

/-- Records whose rendered row is parseable back: the title has no newline
(quotes and commas are fine — they are escaped or quoted), the URL has no
double quote (the code does not escape it) and no newline, and the unquoted
TLD field has no separator, quote or newline. -/
def csvSafeTab (t : Tab) : Prop :=
  '\n' ∉ t.title.toList ∧ '"' ∉ t.url.toList ∧ '\n' ∉ t.url.toList ∧
    t.tld.toList.all csvSafeChar = true

instance (t : Tab) : Decidable (csvSafeTab t) := by
  unfold csvSafeTab
  infer_instance

/-- Digits are CSV-safe. -/
theorem digitChar_safe : ∀ d, d < 10 → csvSafeChar (digitChar d) = true := by
  decide

/-- Decimal renderings are CSV-safe. -/
theorem natCharsAux_all :
    ∀ fuel n, (natCharsAux fuel n).all csvSafeChar = true := by
  intro fuel
  induction fuel with
  | zero => intro n; rfl
  | succ f ih =>
    intro n
    by_cases h : n < 10
    · simp [natCharsAux, h, digitChar_safe n h]
    · simp [natCharsAux, h, List.all_append, ih (n / 10),
        digitChar_safe (n % 10) (Nat.mod_lt _ (by norm_num))]

/-- Decimal renderings are CSV-safe. -/
theorem natChars_all (n : Nat) : (natChars n).all csvSafeChar = true :=
  natCharsAux_all (n + 1) n

/-- Zero padding is CSV-safe. -/
theorem replicate_zero_all (m : Nat) :
    (List.replicate m '0').all csvSafeChar = true := by
  induction m with
  | zero => rfl
  | succ k ih =>
    simp [List.replicate, ih, (by decide : csvSafeChar '0' = true)]

/-- Padded decimal renderings are CSV-safe. -/
theorem padZeros_natChars_all (k n : Nat) :
    (padZeros k (natChars n)).all csvSafeChar = true := by
  simp [padZeros, List.all_append, natChars_all,
    (by decide : csvSafeChar '0' = true)]

/-- ISO layouts are CSV-safe. -/
theorem isoLayout_all (y m d hh mm ss ms3 : Nat) :
    (isoLayout y m d hh mm ss ms3).all csvSafeChar = true := by
  simp [isoLayout, List.all_append, List.all_cons, padZeros_natChars_all,
    (by decide : csvSafeChar '-' = true), (by decide : csvSafeChar 'T' = true),
    (by decide : csvSafeChar ':' = true), (by decide : csvSafeChar '.' = true),
    (by decide : csvSafeChar 'Z' = true)]

/-- ISO timestamps are CSV-safe. -/
theorem isoChars_all (ms : Nat) : (isoChars ms).all csvSafeChar = true :=
  isoLayout_all _ _ _ _ _ _ _

/-- A CSV-safe character run contains no separator, quote or newline. -/
theorem all_safe_not_mem {s : List Char} (h : s.all csvSafeChar = true) :
    ',' ∉ s ∧ '"' ∉ s ∧ '\n' ∉ s := by
  refine ⟨fun hm => ?_, fun hm => ?_, fun hm => ?_⟩ <;>
    · have h2 := List.all_eq_true.mp h _ hm
      simp [csvSafeChar] at h2

/-- Escaping only duplicates quotes and so preserves any predicate that
holds of the quote character. -/
theorem escapeQuotes_all (p : Char → Bool) (hp : p '"' = true) :
    ∀ s : List Char, s.all p = true → (escapeQuotes s).all p = true := by
  intro s
  induction s with
  | nil => intro _; rfl
  | cons c cs ih =>
    intro h
    rw [List.all_cons, Bool.and_eq_true] at h
    obtain ⟨hc, hcs⟩ := h
    by_cases hq : c = '"'
    · subst hq
      simp [escapeQuotes, List.all_cons, hp, ih hcs]
    · simp [escapeQuotes, hq, List.all_cons, hc, ih hcs]

/-- Escaping a quote-free run is the identity. -/
theorem escapeQuotes_eq_self {s : List Char} (h : '"' ∉ s) :
    escapeQuotes s = s := by
  induction s with
  | nil => rfl
  | cons c cs ih =>
    have hc : c ≠ '"' := fun he => h (by simp [he])
    have ht : '"' ∉ cs := fun hm => h (List.mem_cons_of_mem _ hm)
    simp [escapeQuotes, hc, ih ht]

/-- `splitOnChar` never produces the empty list of pieces. -/
theorem splitOnChar_ne_nil (sep : Char) (l : List Char) :
    splitOnChar sep l ≠ [] := by
  cases l with
  | nil => simp [splitOnChar]
  | cons c cs =>
    cases h : splitOnChar sep cs with
    | nil => simp [splitOnChar, h]
    | cons r rs =>
      by_cases hc : c = sep <;> simp [splitOnChar, h, hc]

/-- Splitting a separator-free run yields that run alone. -/
theorem splitOnChar_no_sep (sep : Char) (l : List Char) (h : sep ∉ l) :
    splitOnChar sep l = [l] := by
  induction l with
  | nil => rfl
  | cons c cs ih =>
    have hc : c ≠ sep := fun he => h (by simp [he])
    have ht : sep ∉ cs := fun hm => h (List.mem_cons_of_mem _ hm)
    simp [splitOnChar, ih ht, hc]

/-- Splitting peels off a separator-free prefix at its separator. -/
theorem splitOnChar_append (sep : Char) (x rest : List Char) (hx : sep ∉ x) :
    splitOnChar sep (x ++ sep :: rest) = x :: splitOnChar sep rest := by
  induction x with
  | nil =>
    rcases hsp : splitOnChar sep rest with _ | ⟨r, rs⟩
    · exact absurd hsp (splitOnChar_ne_nil sep rest)
    · simp [splitOnChar, hsp]
  | cons c cs ih =>
    have hc : c ≠ sep := fun he => hx (by simp [he])
    have ht : sep ∉ cs := fun hm => hx (List.mem_cons_of_mem _ hm)
    rcases hsp : splitOnChar sep (cs ++ sep :: rest) with _ | ⟨r, rs⟩
    · exact absurd hsp (splitOnChar_ne_nil sep _)
    · have := ih ht
      rw [hsp] at this
      cases this
      simp [splitOnChar, List.cons_append, hsp, hc]

/-- Splitting inverts `intercalate` on separator-free pieces. -/
theorem splitOnChar_intercalate (sep : Char) (ls : List (List Char))
    (h : ∀ x ∈ ls, sep ∉ x) (hne : ls ≠ []) :
    splitOnChar sep (List.intercalate [sep] ls) = ls := by
  induction ls with
  | nil => exact absurd rfl hne
  | cons x rest ih =>
    cases rest with
    | nil =>
      have : List.intercalate [sep] [x] = x := by
        simp [List.intercalate]
      rw [this]
      exact splitOnChar_no_sep sep x (h x (by simp))
    | cons y rs =>
      have hstep : List.intercalate [sep] (x :: y :: rs)
          = x ++ sep :: List.intercalate [sep] (y :: rs) := by
        simp [List.intercalate, List.intersperse]
      rw [hstep, splitOnChar_append sep x _ (h x (by simp))]
      rw [ih (fun z hz => h z (by simp [hz])) (by simp)]

/-- Parsing the empty line yields the accumulated field. -/
theorem parse_nil (m : CSVMode) (acc : List Char) :
    parseCSVChars [] m acc = [acc.reverse] := rfl

/-- A separator in plain mode emits the accumulated field. -/
theorem parse_comma_plain (xs acc : List Char) :
    parseCSVChars (',' :: xs) CSVMode.plain acc
      = acc.reverse :: parseCSVChars xs CSVMode.plain [] := rfl

/-- A quote in plain mode opens a quoted run. -/
theorem parse_quote_plain (xs acc : List Char) :
    parseCSVChars ('"' :: xs) CSVMode.plain acc
      = parseCSVChars xs CSVMode.quoted acc := rfl

/-- A quote inside a quoted run defers to the next character. -/
theorem parse_quote_quoted (xs acc : List Char) :
    parseCSVChars ('"' :: xs) CSVMode.quoted acc
      = parseCSVChars xs CSVMode.closing acc := rfl

/-- A second quote right after one inside a quoted run is an escaped
quote. -/
theorem parse_quote_closing (xs acc : List Char) :
    parseCSVChars ('"' :: xs) CSVMode.closing acc
      = parseCSVChars xs CSVMode.quoted ('"' :: acc) := rfl

/-- A separator right after a closing quote emits the field. -/
theorem parse_comma_closing (xs acc : List Char) :
    parseCSVChars (',' :: xs) CSVMode.closing acc
      = acc.reverse :: parseCSVChars xs CSVMode.plain [] := rfl

/-- An ordinary character in plain mode extends the field. -/
theorem parse_plain_step (c : Char) (xs acc : List Char)
    (hc : c ≠ ',') (hq : c ≠ '"') :
    parseCSVChars (c :: xs) CSVMode.plain acc
      = parseCSVChars xs CSVMode.plain (c :: acc) := by
  simp only [parseCSVChars]
  rw [if_neg hc, if_neg hq]

/-- An ordinary character in a quoted run extends the field. -/
theorem parse_quoted_step (c : Char) (xs acc : List Char) (hc : c ≠ '"') :
    parseCSVChars (c :: xs) CSVMode.quoted acc
      = parseCSVChars xs CSVMode.quoted (c :: acc) := by
  simp only [parseCSVChars]
  rw [if_neg hc]

/-- An unquoted safe field followed by a separator parses back exactly. -/
theorem parse_unquoted_mid (s : List Char) (rest acc : List Char)
    (h1 : ',' ∉ s) (h2 : '"' ∉ s) :
    parseCSVChars (s ++ ',' :: rest) CSVMode.plain acc
      = (acc.reverse ++ s) :: parseCSVChars rest CSVMode.plain [] := by
  induction s generalizing acc with
  | nil => simp [parse_comma_plain]
  | cons c cs ih =>
    have hc : c ≠ ',' := by intro he; exact h1 (by simp [he])
    have hq : c ≠ '"' := by intro he; exact h2 (by simp [he])
    have h1t : ',' ∉ cs := fun hm => h1 (List.mem_cons_of_mem _ hm)
    have h2t : '"' ∉ cs := fun hm => h2 (List.mem_cons_of_mem _ hm)
    rw [List.cons_append, parse_plain_step c _ _ hc hq, ih _ h1t h2t]
    simp

/-- A final unquoted safe field parses back exactly. -/
theorem parse_unquoted_end (s acc : List Char) (h1 : ',' ∉ s) (h2 : '"' ∉ s) :
    parseCSVChars s CSVMode.plain acc = [acc.reverse ++ s] := by
  induction s generalizing acc with
  | nil => simp [parse_nil]
  | cons c cs ih =>
    have hc : c ≠ ',' := by intro he; exact h1 (by simp [he])
    have hq : c ≠ '"' := by intro he; exact h2 (by simp [he])
    have h1t : ',' ∉ cs := fun hm => h1 (List.mem_cons_of_mem _ hm)
    have h2t : '"' ∉ cs := fun hm => h2 (List.mem_cons_of_mem _ hm)
    rw [parse_plain_step c _ _ hc hq, ih _ h1t h2t]
    simp

/-- A quote-escaped field closed by `"` and a separator parses back to the
original text: un-escaping inverts the doubling. -/
theorem parse_quoted_mid (t : List Char) (rest acc : List Char) :
    parseCSVChars (escapeQuotes t ++ '"' :: ',' :: rest) CSVMode.quoted acc
      = (acc.reverse ++ t) :: parseCSVChars rest CSVMode.plain [] := by
  induction t generalizing acc with
  | nil =>
    show parseCSVChars ('"' :: ',' :: rest) CSVMode.quoted acc = _
    rw [parse_quote_quoted, parse_comma_closing]
    simp
  | cons c cs ih =>
    by_cases hc : c = '"'
    · subst hc
      have he : escapeQuotes ('"' :: cs) = '"' :: '"' :: escapeQuotes cs := by
        simp [escapeQuotes]
      rw [he, List.cons_append, List.cons_append, parse_quote_quoted,
        parse_quote_closing, ih]
      simp
    · have he : escapeQuotes (c :: cs) = c :: escapeQuotes cs := by
        simp [escapeQuotes, hc]
      rw [he, List.cons_append, parse_quoted_step c _ _ hc, ih]
      simp

/-- A quote-free quoted field (as the URL field, which the code does not
escape) parses back exactly. -/
theorem parse_quoted_mid_noq (u : List Char) (hq : '"' ∉ u)
    (rest acc : List Char) :
    parseCSVChars (u ++ '"' :: ',' :: rest) CSVMode.quoted acc
      = (acc.reverse ++ u) :: parseCSVChars rest CSVMode.plain [] := by
  conv_lhs => rw [← escapeQuotes_eq_self hq]
  exact parse_quoted_mid u rest acc

/-- Comma-joining the six fields of a row, written out. -/
theorem intercalate_six (f1 f2 f3 f4 f5 f6 : List Char) :
    List.intercalate [','] [f1, f2, f3, f4, f5, f6]
      = f1 ++ ',' ::
          (f2 ++ ',' :: (f3 ++ ',' :: (f4 ++ ',' :: (f5 ++ ',' :: (f6 ++ []))))) :=
  rfl

/-- Parsing one rendered data row of `convertToCSV` recovers all six fields,
in particular the title (un-escaped) and the URL, exactly. -/
theorem parse_row (t : Tab) (h : csvSafeTab t) :
    parseCSVChars (List.intercalate [','] (csvFields t)) CSVMode.plain []
      = [natChars t.id, t.title.toList, t.url.toList, t.tld.toList,
         natChars t.windowId, isoChars t.openTime] := by
  obtain ⟨ht, hu1, hu2, htld⟩ := h
  obtain ⟨hid1, hid2, -⟩ := all_safe_not_mem (natChars_all t.id)
  obtain ⟨hwin1, hwin2, -⟩ := all_safe_not_mem (natChars_all t.windowId)
  obtain ⟨hiso1, hiso2, -⟩ := all_safe_not_mem (isoChars_all t.openTime)
  obtain ⟨htld1, htld2, -⟩ := all_safe_not_mem htld
  have hfields : csvFields t
      = [natChars t.id, '"' :: (escapeQuotes t.title.toList ++ ['"']),
         '"' :: (t.url.toList ++ ['"']), t.tld.toList, natChars t.windowId,
         isoChars t.openTime] := rfl
  rw [hfields, intercalate_six, parse_unquoted_mid _ _ _ hid1 hid2,
    List.cons_append, parse_quote_plain, List.append_assoc,
    List.singleton_append, parse_quoted_mid, List.cons_append,
    parse_quote_plain, List.append_assoc, List.singleton_append,
    parse_quoted_mid_noq _ hu1, parse_unquoted_mid _ _ _ htld1 htld2,
    parse_unquoted_mid _ _ _ hwin1 hwin2, List.append_nil,
    parse_unquoted_end _ _ hiso1 hiso2]
  rw [List.reverse_nil, List.nil_append, List.nil_append, List.nil_append,
    List.nil_append, List.nil_append, List.nil_append]

/-- A run with no newline satisfies the no-newline scan. -/
theorem all_noNl_of_not_mem (s : List Char) (h : '\n' ∉ s) :
    s.all (fun c => !(c == '\n')) = true := by
  rw [List.all_eq_true]
  intro c hc
  have hcne : c ≠ '\n' := fun he => h (he ▸ hc)
  simp [hcne]

/-- A run passing the no-newline scan has no newline. -/
theorem not_mem_of_all_noNl {s : List Char}
    (h : s.all (fun c => !(c == '\n')) = true) : '\n' ∉ s := by
  intro hm
  have h2 := List.all_eq_true.mp h _ hm
  simp at h2

/-- CSV-safe runs pass the no-newline scan. -/
theorem all_noNl_of_safe {s : List Char} (h : s.all csvSafeChar = true) :
    s.all (fun c => !(c == '\n')) = true := by
  rw [List.all_eq_true] at h ⊢
  intro c hc
  have h2 := h c hc
  simp [csvSafeChar] at h2
  simp [h2.2]

/-- Decimal renderings contain no newline. -/
theorem not_nl_natChars (n : Nat) : '\n' ∉ natChars n :=
  not_mem_of_all_noNl (all_noNl_of_safe (natChars_all n))

/-- ISO timestamps contain no newline. -/
theorem not_nl_isoChars (ms : Nat) : '\n' ∉ isoChars ms :=
  not_mem_of_all_noNl (all_noNl_of_safe (isoChars_all ms))

/-- Quote escaping introduces no newline. -/
theorem not_nl_escapeQuotes (s : List Char) (h : '\n' ∉ s) :
    '\n' ∉ escapeQuotes s :=
  not_mem_of_all_noNl
    (escapeQuotes_all _ (by decide) _ (all_noNl_of_not_mem _ h))

/-- A rendered data row of a safe record contains no newline, so line
splitting cannot cut it. -/
theorem row_no_newline (t : Tab) (h : csvSafeTab t) :
    '\n' ∉ List.intercalate [','] (csvFields t) := by
  obtain ⟨ht, hu1, hu2, htld⟩ := h
  have hexp : List.intercalate [','] (csvFields t)
      = natChars t.id ++ ',' ::
          (('"' :: (escapeQuotes t.title.toList ++ ['"'])) ++ ',' ::
            (('"' :: (t.url.toList ++ ['"'])) ++ ',' ::
              (t.tld.toList ++ ',' ::
                (natChars t.windowId ++ ',' ::
                  (isoChars t.openTime ++ []))))) := by
    rw [show csvFields t
        = [natChars t.id, '"' :: (escapeQuotes t.title.toList ++ ['"']),
           '"' :: (t.url.toList ++ ['"']), t.tld.toList, natChars t.windowId,
           isoChars t.openTime] from rfl, intercalate_six]
  rw [hexp]
  intro hm
  rcases List.mem_append.mp hm with h1 | h1
  · exact not_nl_natChars _ h1
  rcases List.mem_cons.mp h1 with he | h2
  · exact absurd he (by decide)
  rcases List.mem_append.mp h2 with h3 | h3
  · rcases List.mem_cons.mp h3 with he | h4
    · exact absurd he (by decide)
    rcases List.mem_append.mp h4 with h5 | h5
    · exact not_nl_escapeQuotes _ ht h5
    · rcases List.mem_singleton.mp h5 with he
      exact absurd he (by decide)
  rcases List.mem_cons.mp h3 with he | h4
  · exact absurd he (by decide)
  rcases List.mem_append.mp h4 with h5 | h5
  · rcases List.mem_cons.mp h5 with he | h6
    · exact absurd he (by decide)
    rcases List.mem_append.mp h6 with h7 | h7
    · exact hu2 h7
    · rcases List.mem_singleton.mp h7 with he
      exact absurd he (by decide)
  rcases List.mem_cons.mp h5 with he | h6
  · exact absurd he (by decide)
  rcases List.mem_append.mp h6 with h7 | h7
  · exact not_mem_of_all_noNl (all_noNl_of_safe htld) h7
  rcases List.mem_cons.mp h7 with he | h8
  · exact absurd he (by decide)
  rcases List.mem_append.mp h8 with h9 | h9
  · exact not_nl_natChars _ h9
  rcases List.mem_cons.mp h9 with he | h10
  · exact absurd he (by decide)
  rcases List.mem_append.mp h10 with h11 | h11
  · exact not_nl_isoChars _ h11
  · exact List.not_mem_nil _ h11

/-- C6 counterexample.  The code does not escape double quotes inside the
URL field (only the title is escaped): for a record whose URL contains a
double quote, the rendered URL field is not the quote-doubled form, and
CSV-parsing the produced row fails to recover the URL exactly. -/
theorem convertToCSV_url_quote_counterexample :
    (csvFields ⟨7, "t", "https://x.com/\"q", 3, "x.com", 0⟩)
      ≠ [natChars 7, '"' :: (escapeQuotes "t".toList ++ ['"']),
         '"' :: (escapeQuotes "https://x.com/\"q".toList ++ ['"']),
         "x.com".toList, natChars 3, isoChars 0] ∧
    parseCSVChars
        (List.intercalate [',']
          (csvFields ⟨7, "t", "https://x.com/\"q", 3, "x.com", 0⟩))
        CSVMode.plain []
      ≠ [natChars 7, "t".toList, "https://x.com/\"q".toList, "x.com".toList,
         natChars 3, isoChars 0] := by
  constructor <;> decide

/-- C6 amended.  Each data row double-quotes the title with internal quotes
escaped by doubling, but double-quotes the URL **as-is** (internal quotes
are not escaped).  For every record list in which no URL contains a double
quote and no field contains a newline (titles may contain quotes and
commas; the unquoted TLD field contains no comma, quote or newline),
splitting the produced CSV at newlines yields exactly one data row per
input record, and CSV-parsing each data row recovers every field — in
particular each title (un-escaping the doubled quotes) and each URL —
exactly. -/
theorem convertToCSV_roundtrip (records : List Tab)
    (h : ∀ t ∈ records, csvSafeTab t) :
    (splitOnChar '\n' (convertToCSV records).toList).length
      = records.length + 1 ∧
    (splitOnChar '\n' (convertToCSV records).toList).tail.map
        (fun line => parseCSVChars line CSVMode.plain [])
      = records.map (fun t =>
          [natChars t.id, t.title.toList, t.url.toList, t.tld.toList,
           natChars t.windowId, isoChars t.openTime]) := by
  have htl : (convertToCSV records).toList
      = List.intercalate ['\n']
          ((headerFields :: records.map csvFields).map
            (List.intercalate [','])) := rfl
  have hsep : ∀ x ∈ (headerFields :: records.map csvFields).map
      (List.intercalate [',']), '\n' ∉ x := by
    intro x hx
    rcases List.mem_map.mp hx with ⟨fs, hfs, rfl⟩
    rcases List.mem_cons.mp hfs with rfl | hfs2
    · decide
    · rcases List.mem_map.mp hfs2 with ⟨t, htm, rfl⟩
      exact row_no_newline t (h t htm)
  have hsplit := splitOnChar_intercalate '\n' _ hsep (by simp)
  rw [htl, hsplit]
  constructor
  · simp
  · simp only [List.map_cons, List.tail_cons, List.map_map]
    exact List.map_congr_left fun t htm => parse_row t (h t htm)

/-- Witness for C6's amended statement: a one-record list whose title
contains a double quote round-trips exactly. -/
theorem convertToCSV_roundtrip_witness :
    (∀ t ∈ ([⟨1, "a\"b", "https://x.com/", 2, "x.com", 0⟩] : List Tab),
      csvSafeTab t) ∧
    (splitOnChar '\n'
        (convertToCSV [⟨1, "a\"b", "https://x.com/", 2, "x.com", 0⟩]).toList).tail.map
        (fun line => parseCSVChars line CSVMode.plain [])
      = ([⟨1, "a\"b", "https://x.com/", 2, "x.com", 0⟩] : List Tab).map
          (fun t =>
            [natChars t.id, t.title.toList, t.url.toList, t.tld.toList,
             natChars t.windowId, isoChars t.openTime]) :=
  ⟨by decide,
   (convertToCSV_roundtrip [⟨1, "a\"b", "https://x.com/", 2, "x.com", 0⟩]
      (by decide)).2⟩

/-! ## Claim C9: unrecognized sort-method names -/

/-- C9 counterexample.  In `background_v2.js` an unrecognized method name
skips the sort step entirely, so its output differs from the default
(`'tld'`) output on a two-tab snapshot whose keys are out of order. -/
theorem sortFallback_counterexample :
    sortStepV2 "foo"
      [⟨1, "", "https://b.com/", 1, "b.com", 0⟩,
       ⟨2, "", "https://a.com/", 1, "a.com", 0⟩]
    ≠ sortStepV2 "tld"
      [⟨1, "", "https://b.com/", 1, "b.com", 0⟩,
       ⟨2, "", "https://a.com/", 1, "a.com", 0⟩] := by decide

/-- C9 amended.  `sortTabs` in `background_v3.js` falls back to the `tld`
comparator for every method name, so its output always equals the default;
but the sort step of `collectAndSortTabs` in `background_v2.js` sorts only
when the method is exactly `'tld'` and otherwise leaves the collected order
unchanged (it skips the sort rather than falling back). -/
theorem sort_method_fallback_amended :
    (∀ (tabData : List Tab) (method : String),
      V3.sortTabs tabData method = V3.sortTabs tabData "tld") ∧
    (∀ (tabData : List Tab) (method : String), method ≠ "tld" →
      sortStepV2 method tabData = tabData) := by
  constructor
  · intro tabData method
    show sortTabsBy _ _ = sortTabsBy _ _
    cases h : (("tld", tabLe) : String × (Tab → Tab → Bool)).1 == method <;>
      simp [V3.sortTabs, List.find?, h]
  · intro tabData method hm
    have : (method == "tld") = false := by
      simp [hm]
    simp [sortStepV2, this]

/-- Witness for C9's amended statement at the method name `"foo"`. -/
theorem sort_method_fallback_amended_witness :
    ("foo" : String) ≠ "tld" ∧
    sortStepV2 "foo" [⟨1, "", "https://b.com/", 1, "b.com", 0⟩]
      = [⟨1, "", "https://b.com/", 1, "b.com", 0⟩] :=
  ⟨by decide, sort_method_fallback_amended.2 [⟨1, "", "https://b.com/", 1, "b.com", 0⟩] "foo" (by decide)⟩

/-! ## Claim C7: CSV conversion of an empty snapshot -/

/-- C7 counterexample.  `convertToCSV` applied to the empty record sequence
does not fail: it returns exactly the header-only string. -/
theorem convertToCSV_empty_counterexample :
    convertToCSV [] = "ID,Title,URL,TLD,Window ID,Open Time" := by decide

/-- C7 amended.  `convertToCSV` on empty input returns the header-only
string; the empty-input condition is instead raised by the caller
`handleExportCSV`, which rejects an empty snapshot with an explicit error
before `convertToCSV` is ever invoked, so the export command never produces
a header-only file. -/
theorem convertToCSV_empty_amended :
    V2.handleExportCSV none [] (fun _ => none) 0
      = .error "No tabs available to export." ∧
    convertToCSV [] = "ID,Title,URL,TLD,Window ID,Open Time" :=
  ⟨rfl, by decide⟩

/-! ## Claim C10: `sortTabs` versus `sortTabsMove` in `background_v2.js` -/

/-- C10.  The `sortTabs` and `sortTabsMove` actions run the identical
collect → group → `organizeTabsByTLD` pipeline, so they produce the same
final window/tab topology for every initial browser state; they differ only
in that `sortTabs` persists the snapshot to `originalTabs` while
`sortTabsMove` writes nothing, and in the returned success strings. -/
theorem v2_sort_vs_move (s : BrowserState) (times : Nat → Option Nat)
    (now nextId : Nat) (method : String) :
    (sortTabsActionV2 s times now nextId method).1 =
      (sortTabsMoveActionV2 s times now nextId method).1 ∧
    (sortTabsActionV2 s times now nextId method).2.1 =
      some (collectAndSortTabs s times now method) ∧
    (sortTabsMoveActionV2 s times now nextId method).2.1 = none ∧
    (sortTabsActionV2 s times now nextId method).2.2 = "Tabs sorted successfully." ∧
    (sortTabsMoveActionV2 s times now nextId method).2.2 = "Tabs sorted successfully (Move)." :=
  ⟨rfl, rfl, rfl, rfl, rfl⟩

/-! ## Claim C1: the window assignment -/

/-- C1 counterexample.  One pre-existing window (id 1) holds tabs of the two
domain keys `a.com` and `b.com`; the assignment loop gives **both** keys
window 1, because a claimed window is never removed from the
`existingWindows` map — refuting the claim that each live window is the
target of at most one domain key. -/
theorem assignment_shared_window_counterexample :
    (assignLoop ["a.com", "b.com"]
      [⟨1, [⟨10, "https://a.com/", "A"⟩, ⟨11, "https://b.com/", "B"⟩]⟩] 100).1
      = [("a.com", 1), ("b.com", 1)] ∧
    ¬ ((assignLoop ["a.com", "b.com"]
      [⟨1, [⟨10, "https://a.com/", "A"⟩, ⟨11, "https://b.com/", "B"⟩]⟩] 100).1.map
        Prod.snd).Nodup := by
  constructor <;> decide

/-- C1 amended.  The assignment computed for a run maps every domain key to
exactly one window handle (one assignment per key, in key-iteration order);
but a pre-existing window claimed by one group is not removed from
consideration, so a window containing tabs of several domain keys is
assigned to all of those keys and distinct keys may share a target
window. -/
theorem assignLoop_amended (tlds : List String) (existing : List Window)
    (nextId : Nat) :
    ((assignLoop tlds existing nextId).1.map Prod.fst) = tlds := by
  induction tlds generalizing existing nextId with
  | nil => rfl
  | cons tld rest ih =>
    simp only [assignLoop]
    cases h : existing.find? (fun w => windowMatches w tld) <;> simp [h, ih]

/-! ## Claim C3: recreate mode closes only after all creations settle -/

/-- Closed ids of a batch of close events are exactly the batch's ids. -/
theorem closedIds_map_close (l : List Nat) (f : Nat → Bool) :
    closedIds (l.map fun id => REvent.close id (f id)) = l := by
  induction l with
  | nil => rfl
  | cons a l ih => simp [closedIds, List.filterMap_cons] at ih ⊢; exact ih

/-- Creation events contribute no closed ids. -/
theorem closedIds_map_create (l : List (Nat × String × List Tab))
    (nextId : Nat) (cf : Nat → Bool) :
    closedIds (l.map fun p =>
      REvent.create (nextId + p.1) (p.2.2.map Tab.url) (!(cf p.1))) = [] := by
  induction l with
  | nil => rfl
  | cons a l ih => simp [closedIds, List.filterMap_cons] at ih ⊢

/-- `closedIds` distributes over trace concatenation. -/
theorem closedIds_append (a b : List REvent) :
    closedIds (a ++ b) = closedIds a ++ closedIds b := by
  simp [closedIds, List.filterMap_append]

/-- No id below `nextId` is among the freshly created window ids. -/
theorem not_mem_newWindowIds (count nextId id : Nat) (h : id < nextId) :
    id ∉ newWindowIds count nextId := by
  simp only [newWindowIds, List.mem_map, List.mem_range, not_exists]
  intro i
  omega

/-- C3.  In recreate mode the trace of host mutations is all window
creations followed by all window closes (so no close is issued before every
creation has settled); when every creation succeeds, a close is issued for
every window handle that existed before the operation began; when any
creation fails, no close is issued at all; and the set of closes issued does
not depend on which individual closes fail. -/
theorem recreate_close_after_create (groups : List (String × List Tab))
    (origIds : List Nat) (nextId : Nat) (createFails closeFails : Nat → Bool)
    (hfresh : ∀ id ∈ origIds, id < nextId) :
    (openWindowsByTLD groups origIds nextId createFails closeFails =
      (openWindowsByTLD groups origIds nextId createFails closeFails).filter
        REvent.isCreate ++
      (openWindowsByTLD groups origIds nextId createFails closeFails).filter
        (fun e => !(REvent.isCreate e))) ∧
    ((List.range groups.length).any createFails = false →
      closedIds (openWindowsByTLD groups origIds nextId createFails closeFails)
        = origIds) ∧
    ((List.range groups.length).any createFails = true →
      closedIds (openWindowsByTLD groups origIds nextId createFails closeFails)
        = []) ∧
    (∀ closeFails2 : Nat → Bool,
      closedIds (openWindowsByTLD groups origIds nextId createFails closeFails2)
        = closedIds (openWindowsByTLD groups origIds nextId createFails closeFails)) := by
  have hcre : ∀ e ∈ groups.enum.map (fun p =>
      REvent.create (nextId + p.1) (p.2.2.map Tab.url) (!(createFails p.1))),
      REvent.isCreate e = true := by
    intro e he
    rcases List.mem_map.mp he with ⟨p, _, rfl⟩
    rfl
  have hclo : ∀ e ∈ closeOriginalWindows origIds
      (newWindowIds groups.length nextId) closeFails, REvent.isCreate e = false := by
    intro e he
    rcases List.mem_map.mp he with ⟨id, _, rfl⟩
    rfl
  have horig : origIds.filter
      (fun id => !((newWindowIds groups.length nextId).contains id)) = origIds := by
    refine List.filter_eq_self.mpr fun id hid => ?_
    simp [not_mem_newWindowIds groups.length nextId id (hfresh id hid)]
  by_cases hc : (List.range groups.length).any createFails = true
  · refine ⟨?_, fun hf => absurd hc (by simp [hf]), fun _ => ?_, fun clf2 => ?_⟩
    · simp only [openWindowsByTLD, if_pos hc]
      rw [List.filter_eq_self.mpr hcre,
        List.filter_eq_nil_iff.mpr (fun e he => by simp [hcre e he]), List.append_nil]
    · simp only [openWindowsByTLD, if_pos hc]
      exact closedIds_map_create groups.enum nextId createFails
    · simp only [openWindowsByTLD, if_pos hc]
  · have hc2 : ((List.range groups.length).any createFails) = false :=
      Bool.not_eq_true _ ▸ Bool.of_not_eq_true hc
    refine ⟨?_, fun _ => ?_, fun hf => absurd hf hc, fun clf2 => ?_⟩
    · simp only [openWindowsByTLD, if_neg hc]
      rw [List.filter_append, List.filter_append,
        List.filter_eq_self.mpr hcre,
        List.filter_eq_nil_iff.mpr (fun e he => by simp [hclo e he]),
        List.filter_eq_nil_iff.mpr (fun e he => by simp [hcre e he]),
        List.filter_eq_self.mpr (fun e he => by simp [hclo e he]),
        List.append_nil, List.nil_append]
    · simp only [openWindowsByTLD, if_neg hc]
      rw [closedIds_append, closedIds_map_create, closeOriginalWindows,
        closedIds_map_close, horig, List.nil_append]
    · simp only [openWindowsByTLD, if_neg hc]
      rw [closedIds_append, closedIds_append, closedIds_map_create,
        closeOriginalWindows, closeOriginalWindows, closedIds_map_close,
        closedIds_map_close]

/-- Witness for C3 at a one-group run over two original windows with no
host failures: both original windows get a close issued. -/
theorem recreate_close_after_create_witness :
    (∀ id ∈ ([1, 2] : List Nat), id < 10) ∧
    closedIds (openWindowsByTLD [("a.com", [])] [1, 2] 10 (fun _ => false)
      (fun _ => false)) = [1, 2] :=
  ⟨by decide,
   (recreate_close_after_create [("a.com", [])] [1, 2] 10 (fun _ => false)
      (fun _ => false) (by decide)).2.1 (by decide)⟩

/-! ## Claim C2: the reap phase -/

/-- Removing the windows with one id does not change the lookup of a
different id. -/
theorem find_filter_ne (s : BrowserState) (c x : Nat) (h : x ≠ c) :
    (s.filter fun w => !(w.id == c)).find? (fun w => w.id == x)
      = s.find? (fun w => w.id == x) := by
  induction s with
  | nil => rfl
  | cons w s ih =>
    have hcx : (c == x) = false := by simp [Ne.symm h]
    have hxc : (x == c) = false := by simp [h]
    by_cases hw : w.id = c
    · have h1 : (w.id == x) = false := by simp [hw, Ne.symm h]
      simp [List.filter_cons, hw, List.find?_cons, h1, hcx, hxc, h, Ne.symm h, ih]
    · by_cases h2 : w.id = x
      · simp [List.filter_cons, hw, List.find?_cons, h2, hcx, hxc, h, Ne.symm h]
      · simp [List.filter_cons, hw, List.find?_cons, h2, hcx, hxc, h, Ne.symm h, ih]

/-- `windowTabs` of a different id is unchanged by removing one window. -/
theorem windowTabs_filter_ne (s : BrowserState) (c x : Nat) (h : x ≠ c) :
    windowTabs (s.filter fun w => !(w.id == c)) x = windowTabs s x := by
  simp [windowTabs, find_filter_ne s c x h]

/-- When window ids are unique, every window with a given id has exactly the
tab strip that querying that id reports. -/
theorem tabs_of_mem_id (s : BrowserState) (c : Nat)
    (hids : (s.map Window.id).Nodup) :
    ∀ w ∈ s, w.id = c → w.tabs = windowTabs s c := by
  induction s with
  | nil => intro w hw; cases hw
  | cons v s ih =>
    intro w hw hwc
    rcases List.mem_cons.mp hw with rfl | hmem
    · simp [windowTabs, List.find?_cons, hwc]
    · by_cases hv : v.id = c
      · exfalso
        have hmem2 : c ∈ s.map Window.id := List.mem_map.mpr ⟨w, hmem, hwc⟩
        have hne := (List.nodup_cons.mp hids).1
        rw [hv] at hne
        exact hne hmem2
      · have h1 : (v.id == c) = false := by simp [hv]
        have h2 : windowTabs (v :: s) c = windowTabs s c := by
          simp [windowTabs, List.find?_cons, h1]
        rw [h2]
        exact ih (List.nodup_cons.mp hids).2 w hmem hwc

/-- C2.  After the move phase, the reap phase closes exactly those candidate
windows that hold zero tabs when re-queried: the issued closes are precisely
the candidates whose queried tab strip is empty, and the surviving state
keeps exactly the windows that either hold at least one tab or are not
candidates (so no window holding a tab is ever closed, and every empty
candidate window is closed). -/
theorem reap_closes_exactly_empty (candidates : List Nat) (s : BrowserState)
    (hc : candidates.Nodup) (hw : (s.map Window.id).Nodup) :
    (reapWindows candidates s).2
      = candidates.filter (fun c => (windowTabs s c).isEmpty) ∧
    (reapWindows candidates s).1
      = s.filter (fun w => !(candidates.contains w.id && w.tabs.isEmpty)) := by
  revert s hc hw
  induction candidates with
  | nil =>
    intro s hc hw
    exact ⟨rfl, by simp [reapWindows]⟩
  | cons c cs ih =>
    intro s hc hw
    have hnodup := List.nodup_cons.mp hc
    by_cases he : (windowTabs s c).isEmpty = true
    · have hw2 : ((s.filter fun w => !(w.id == c)).map Window.id).Nodup :=
        List.Nodup.sublist (List.Sublist.map _ (List.filter_sublist s)) hw
      obtain ⟨ih1, ih2⟩ := ih (s.filter fun w => !(w.id == c)) hnodup.2 hw2
      constructor
      · simp only [reapWindows, if_pos he]
        rw [ih1]
        simp only [List.filter_cons, he, if_true]
        congr 1
        refine List.filter_congr fun x hx => ?_
        rw [windowTabs_filter_ne s c x fun hxc => hnodup.1 (hxc ▸ hx)]
      · simp only [reapWindows, if_pos he]
        rw [ih2, List.filter_filter]
        refine List.filter_congr fun w hwmem => ?_
        by_cases hid : w.id = c
        · have hemp : w.tabs.isEmpty = true := by
            rw [tabs_of_mem_id s c hw w hwmem hid]
            exact he
          simp [hid, hemp]
        · simp [hid, List.contains_cons]
    · obtain ⟨ih1, ih2⟩ := ih s hnodup.2 hw
      have heb : ((windowTabs s c).isEmpty) = false := Bool.of_not_eq_true he
      constructor
      · simp only [reapWindows, if_neg he]
        rw [ih1]
        simp [List.filter_cons, heb]
      · simp only [reapWindows, if_neg he]
        rw [ih2]
        refine List.filter_congr fun w hwmem => ?_
        by_cases hid : w.id = c
        · have hne2 : w.tabs.isEmpty = false := by
            rw [tabs_of_mem_id s c hw w hwmem hid]
            exact heb
          simp [hid, hne2, List.contains_cons]
        · simp [hid, List.contains_cons]

/-- Witness for C2: of three candidate windows, the one still holding a tab
survives and the two empty ones are closed. -/
theorem reap_closes_exactly_empty_witness :
    (([1, 2, 3] : List Nat).Nodup ∧
      (([⟨1, [⟨9, "https://a.com/", "A"⟩]⟩, ⟨2, []⟩, ⟨3, []⟩] : BrowserState).map
        Window.id).Nodup) ∧
    (reapWindows [1, 2, 3]
        [⟨1, [⟨9, "https://a.com/", "A"⟩]⟩, ⟨2, []⟩, ⟨3, []⟩]).2
      = ([1, 2, 3].filter fun c =>
          (windowTabs [⟨1, [⟨9, "https://a.com/", "A"⟩]⟩, ⟨2, []⟩, ⟨3, []⟩] c).isEmpty) ∧
    (reapWindows [1, 2, 3]
        [⟨1, [⟨9, "https://a.com/", "A"⟩]⟩, ⟨2, []⟩, ⟨3, []⟩]).1
      = ([⟨1, [⟨9, "https://a.com/", "A"⟩]⟩, ⟨2, []⟩, ⟨3, []⟩].filter fun w =>
          !(([1, 2, 3] : List Nat).contains w.id && w.tabs.isEmpty)) :=
  ⟨⟨by decide, by decide⟩,
   (reap_closes_exactly_empty [1, 2, 3]
      [⟨1, [⟨9, "https://a.com/", "A"⟩]⟩, ⟨2, []⟩, ⟨3, []⟩] (by decide) (by decide)).1,
   (reap_closes_exactly_empty [1, 2, 3]
      [⟨1, [⟨9, "https://a.com/", "A"⟩]⟩, ⟨2, []⟩, ⟨3, []⟩] (by decide) (by decide)).2⟩

/-- C8 counterexample.  With no persisted snapshot and a nonempty live
snapshot available, `handleExportCSV` of `background_v3.js` fails instead of
operating on a freshly collected snapshot; with a nonempty persisted
snapshot and no live tabs, `handleExportCSV` of `background_v2.js` fails
instead of operating on the persisted snapshot. -/
theorem exportCSV_source_counterexample :
    V3.handleExportCSV none [⟨1, [⟨5, "https://a.com/", "A"⟩]⟩] (fun _ => none) 7
      = .error "No tab data found to export." ∧
    collectAndSortTabs [⟨1, [⟨5, "https://a.com/", "A"⟩]⟩] (fun _ => none) 7 "tld" ≠ [] ∧
    V2.handleExportCSV (some [⟨5, "A", "https://a.com/", 1, "a.com", 7⟩]) []
      (fun _ => none) 7
      = .error "No tabs available to export." :=
  ⟨rfl, by decide, rfl⟩

/-- C8 amended.  `exportCSV` takes no input.  In `background_v3.js` it
operates exclusively on the persisted snapshot — ignoring the live browser
state — and fails with its explicit error when no (or an empty) snapshot is
persisted, with no fresh-collection fallback; in `background_v2.js` it
always operates on a freshly collected snapshot — ignoring the persisted
record — and fails with its explicit error when the fresh collection is
empty. -/
theorem exportCSV_amended (persisted : Option (List Tab)) (s s2 : BrowserState)
    (times times2 : Nat → Option Nat) (now now2 : Nat) :
    (V3.handleExportCSV persisted s times now
       = V3.handleExportCSV persisted s2 times2 now2) ∧
    (V3.handleExportCSV none s times now
       = .error "No tab data found to export.") ∧
    (∀ ts : List Tab, ts ≠ [] →
      V3.handleExportCSV (some ts) s times now
        = .ok (convertToCSV ts, "CSV exported successfully.")) ∧
    (∀ p2 : Option (List Tab),
      V2.handleExportCSV persisted s times now
        = V2.handleExportCSV p2 s times now) ∧
    (collectAndSortTabs s times now "tld" = [] →
      V2.handleExportCSV persisted s times now
        = .error "No tabs available to export.") ∧
    (collectAndSortTabs s times now "tld" ≠ [] →
      V2.handleExportCSV persisted s times now
        = .ok (convertToCSV (collectAndSortTabs s times now "tld"),
               "CSV exported successfully.")) := by
  refine ⟨rfl, rfl, fun ts hts => ?_, fun p2 => rfl, fun he => ?_, fun hne => ?_⟩
  · have : ts.length ≠ 0 := by
      simpa [List.length_eq_zero] using hts
    simp [V3.handleExportCSV, this]
  · simp [V2.handleExportCSV, he]
  · have : (collectAndSortTabs s times now "tld").length ≠ 0 := by
      simpa [List.length_eq_zero] using hne
    simp [V2.handleExportCSV, this]

/-- Witness for C8's amended statement: a nonempty persisted snapshot is
exported as-is by the v3 handler. -/
theorem exportCSV_amended_witness :
    ([⟨5, "A", "https://a.com/", 1, "a.com", 7⟩] : List Tab) ≠ [] ∧
    V3.handleExportCSV (some [⟨5, "A", "https://a.com/", 1, "a.com", 7⟩]) []
      (fun _ => none) 0
      = .ok (convertToCSV [⟨5, "A", "https://a.com/", 1, "a.com", 7⟩],
             "CSV exported successfully.") :=
  ⟨by decide,
   (exportCSV_amended (some [⟨5, "A", "https://a.com/", 1, "a.com", 7⟩]) [] []
      (fun _ => none) (fun _ => none) 0 0).2.2.1
      [⟨5, "A", "https://a.com/", 1, "a.com", 7⟩] (by decide)⟩
